import Mathlib

/-!
Verification of the tradewedge backtesting engine
(`backend/app/backtesting/engine.py`, `strategy.py`, `schemas.py`).

Prices, capital and percentages are modelled as exact rationals (`ℚ`);
Python floats compute the same formulas approximately.  Dates are
modelled as natural numbers (days); share quantities as integers
(`int(...)` in Python truncates toward zero, see `truncZ`).
-/

namespace Backtest

/-- Python `int(x)` applied to a rational: truncation toward zero. -/
def truncZ (q : ℚ) : ℤ :=
  if 0 ≤ q then ⌊q⌋ else ⌈q⌉

/-- One OHLCV observation (`Bar`).  `openPrice` models the `Open` column. -/
structure Bar where
  date : ℕ
  openPrice : ℚ
  high : ℚ
  low : ℚ
  close : ℚ
  volume : ℕ
deriving DecidableEq

/-- `SignalType` enum from `schemas.py`. -/
inductive SignalType where
  | BUY
  | SELL
  | HOLD
deriving DecidableEq

/-- `PositionSide` enum from `schemas.py`. -/
inductive PositionSide where
  | LONG
  | SHORT
deriving DecidableEq

/-- `PositionStatus` enum from `schemas.py`. -/
inductive PositionStatus where
  | OPEN
  | CLOSED
deriving DecidableEq

/-- `BacktestConfig` from `schemas.py`: run parameters. -/
structure BacktestConfig where
  initial_capital : ℚ
  commission : ℚ
  commission_pct : ℚ
  slippage : ℚ
  slippage_pct : ℚ
  position_size_pct : ℚ
deriving DecidableEq

/-- The pydantic field constraints on `BacktestConfig`. -/
def BacktestConfig.Valid (cfg : BacktestConfig) : Prop :=
  0 < cfg.initial_capital ∧ 0 ≤ cfg.commission ∧
  0 ≤ cfg.commission_pct ∧ cfg.commission_pct ≤ 1 ∧
  0 ≤ cfg.slippage ∧ 0 ≤ cfg.slippage_pct ∧ cfg.slippage_pct ≤ 1 ∧
  0 < cfg.position_size_pct ∧ cfg.position_size_pct ≤ 1

instance (cfg : BacktestConfig) : Decidable cfg.Valid := by
  unfold BacktestConfig.Valid
  infer_instance

/-- `Position` from `schemas.py`: one simulated trade. -/
structure Position where
  entry_date : ℕ
  entry_price : ℚ
  exit_date : Option ℕ
  exit_price : Option ℚ
  quantity : ℤ
  side : PositionSide
  status : PositionStatus
  entry_value : ℚ
  exit_value : Option ℚ
  pnl : Option ℚ
  pnl_pct : Option ℚ
  commission_paid : ℚ
deriving DecidableEq

/-- `Signal` from `schemas.py`: a strategy's trading instruction. -/
structure Signal where
  date : ℕ
  signal : SignalType
  price : ℚ
  reason : Option String
deriving DecidableEq

/-- One entry of `self.equity_curve` (the dict built in
`_update_equity_curve`); `ret` models the `"return"` key. -/
structure EquityPoint where
  date : ℕ
  equity : ℚ
  cash : ℚ
  ret : ℚ
  return_pct : ℚ
deriving DecidableEq

/-- The mutable state of `BacktestEngine`: `self.capital`,
`self.positions`, `self.equity_curve`, `self.current_position`. -/
structure EngineState where
  capital : ℚ
  positions : List Position
  equity_curve : List EquityPoint
  current_position : Option Position
deriving DecidableEq

/-- `PerformanceMetrics` from `schemas.py`.  `sharpe` models the
`sharpe_ratio` field (renamed here); `annual_return_pct` and `sharpe`
are real-valued because the source computes them with `**` and `sqrt`. -/
structure PerformanceMetrics where
  total_return : ℚ
  total_return_pct : ℚ
  annual_return_pct : ℝ
  sharpe : Option ℝ
  max_drawdown : ℚ
  max_drawdown_pct : ℚ
  win_rate : ℚ
  total_trades : ℕ
  winning_trades : ℕ
  losing_trades : ℕ
  avg_win : ℚ
  avg_loss : ℚ
  profit_factor : Option ℚ
  total_commission : ℚ

/-- A strategy: name, parameters, and its `generate_signals` method. -/
structure Strategy where
  name : String
  params : List (String × ℚ)
  generate_signals : List Bar → List Signal

/-- `BacktestResult` from `schemas.py`. -/
structure BacktestResult where
  ticker : String
  strategy_type : String
  strategy_params : List (String × ℚ)
  start_date : ℕ
  end_date : ℕ
  initial_capital : ℚ
  final_capital : ℚ
  metrics : PerformanceMetrics
  positions : List Position
  signals : List Signal
  equity_curve : List EquityPoint

/-- `BacktestEngine._open_position` (engine.py lines 122-176). -/
def open_position (cfg : BacktestConfig) (st : EngineState) (sig : Signal) :
    EngineState :=
  match st.current_position with
  | some _ => st
  | none =>
    let available_capital := st.capital * cfg.position_size_pct
    let entry_price := sig.price * (1 + cfg.slippage_pct) + cfg.slippage
    let cost_per_share := entry_price * (1 + cfg.commission_pct)
    let quantity : ℤ := truncZ ((available_capital - cfg.commission) / cost_per_share)
    if quantity ≤ 0 then st
    else
      let entry_value := (quantity : ℚ) * entry_price
      let commission := cfg.commission + entry_value * cfg.commission_pct
      let total_cost := entry_value + commission
      if st.capital < total_cost then st
      else
        { st with
          capital := st.capital - total_cost
          current_position := some
            { entry_date := sig.date
              entry_price := entry_price
              exit_date := none
              exit_price := none
              quantity := quantity
              side := PositionSide.LONG
              status := PositionStatus.OPEN
              entry_value := entry_value
              exit_value := none
              pnl := none
              pnl_pct := none
              commission_paid := commission } }

/-- `BacktestEngine._close_position` (engine.py lines 178-220). -/
def close_position (cfg : BacktestConfig) (st : EngineState) (sig : Signal) :
    EngineState :=
  match st.current_position with
  | none => st
  | some pos =>
    let exit_price := sig.price * (1 - cfg.slippage_pct) - cfg.slippage
    let exit_value := (pos.quantity : ℚ) * exit_price
    let exit_commission := cfg.commission + exit_value * cfg.commission_pct
    let total_commission := pos.commission_paid + exit_commission
    let pnl := exit_value - pos.entry_value - total_commission
    let pnl_pct := pnl / pos.entry_value * 100
    { st with
      capital := st.capital + (exit_value - exit_commission)
      positions := st.positions ++
        [{ pos with
            exit_date := some sig.date
            exit_price := some exit_price
            exit_value := some exit_value
            pnl := some pnl
            pnl_pct := some pnl_pct
            status := PositionStatus.CLOSED
            commission_paid := total_commission }]
      current_position := none }

/-- `BacktestEngine._update_equity_curve` (engine.py lines 222-246). -/
def update_equity_curve (cfg : BacktestConfig) (st : EngineState)
    (date : ℕ) (price : ℚ) : EngineState :=
  let portfolio_value :=
    match st.current_position with
    | some p => st.capital + (p.quantity : ℚ) * price
    | none => st.capital
  { st with
    equity_curve := st.equity_curve ++
      [{ date := date
         equity := portfolio_value
         cash := st.capital
         ret := portfolio_value - cfg.initial_capital
         return_pct := (portfolio_value - cfg.initial_capital) / cfg.initial_capital * 100 }] }

/-- The trading part of `_execute_signal`: dispatch on the signal kind. -/
def trade_step (cfg : BacktestConfig) (st : EngineState) (sig : Signal) :
    EngineState :=
  match sig.signal with
  | SignalType.BUY => open_position cfg st sig
  | SignalType.SELL => close_position cfg st sig
  | SignalType.HOLD => st

/-- `BacktestEngine._execute_signal` (engine.py lines 106-120):
trade, then append one equity point at the signal's date and price. -/
def execute_signal (cfg : BacktestConfig) (st : EngineState) (sig : Signal) :
    EngineState :=
  update_equity_curve cfg (trade_step cfg st sig) sig.date sig.price

/-- The state reset at the start of `BacktestEngine.run` (lines 75-79). -/
def resetState (cfg : BacktestConfig) : EngineState :=
  { capital := cfg.initial_capital
    positions := []
    equity_curve := []
    current_position := none }

/-- The date filtering at the start of `run` (lines 66-70):
keep bars with `start_date ≤ date` and `date ≤ end_date`. -/
def filterBars (bars : List Bar) (sd ed : Option ℕ) : List Bar :=
  let b1 := match sd with
    | some s => bars.filter (fun b => decide (s ≤ b.date))
    | none => bars
  match ed with
  | some e => b1.filter (fun b => decide (b.date ≤ e))
  | none => b1

/-- `BacktestEngine._calculate_max_drawdown` loop body (lines 335-344). -/
def ddStep : ℚ × ℚ × ℚ → ℚ → ℚ × ℚ × ℚ :=
  fun acc value =>
    let peak := if acc.1 < value then value else acc.1
    let dd := peak - value
    let dd_pct := if 0 < peak then dd / peak * 100 else 0
    if acc.2.1 < dd then (peak, dd, dd_pct) else (peak, acc.2.1, acc.2.2)

/-- `BacktestEngine._calculate_max_drawdown` (engine.py lines 318-346). -/
def calculate_max_drawdown (equity_values : List ℚ) : ℚ × ℚ :=
  match equity_values with
  | [] => (0, 0)
  | v :: _ =>
    let r := equity_values.foldl ddStep (v, 0, 0)
    (r.2.1, r.2.2)

/-- `np.mean` of a rational list (0 on the empty list, as `sum/len`). -/
def listMean (l : List ℚ) : ℚ :=
  l.sum / l.length

/-- `np.std(...)^2`: the population variance of a rational list. -/
def listVar (l : List ℚ) : ℚ :=
  (l.map (fun x => (x - listMean l) ^ 2)).sum / l.length

/-- `BacktestEngine._calculate_sharpe_ratio` (engine.py lines 348-371).
`np.std(x) == 0` holds exactly when the population variance is zero,
so the guard is stated on `listVar`; the returned value divides by the
standard deviation `Real.sqrt (listVar ...)`. -/
noncomputable def calculate_sharpe (returns : List ℚ) (risk_free_rate : ℚ) :
    Option ℝ :=
  if returns.length < 2 then none
  else
    let excess_returns := returns.map (fun x => x - risk_free_rate)
    if listVar excess_returns = 0 then none
    else some (((listMean excess_returns : ℚ) : ℝ) /
      Real.sqrt ((listVar excess_returns : ℚ) : ℝ) * Real.sqrt 252)

/-- Calendar span of the series in years: `(last_date - first_date).days
/ 365.25` (engine.py lines 263-264). -/
def yearsOf (df : List Bar) : ℚ :=
  ((((df.getLast?.map Bar.date).getD 0 : ℕ) : ℚ) -
    (((df.head?.map Bar.date).getD 0 : ℕ) : ℚ)) / (36525 / 100)

/-- `BacktestEngine._calculate_metrics` (engine.py lines 248-316).
Returns `none` for the one failure mode of the Python code: when
`years > 0` and `capital / initial_capital < 0`, the expression
`(capital / initial_capital) ** (1 / years)` has a negative base and a
non-integral exponent (`1/years = 1461/(4*days)` is never an integer
for `days > 0` since 1461 is odd), so Python yields a `complex` and the
pydantic float field `annual_return_pct` raises a `ValidationError`. -/
noncomputable def calculate_metrics (cfg : BacktestConfig) (st : EngineState)
    (df : List Bar) : Option PerformanceMetrics :=
  let total_return := st.capital - cfg.initial_capital
  let total_return_pct := total_return / cfg.initial_capital * 100
  let years : ℚ := yearsOf df
  if 0 < years ∧ st.capital / cfg.initial_capital < 0 then none
  else
  let annual_return_pct : ℝ :=
    if 0 < years then
      (Real.rpow ((st.capital / cfg.initial_capital : ℚ) : ℝ)
        (1 / ((years : ℚ) : ℝ)) - 1) * 100
    else 0
  let closed_positions := st.positions.filter
    (fun p => decide (p.status = PositionStatus.CLOSED))
  let total_trades := closed_positions.length
  let wins := closed_positions.filterMap
    (fun p => match p.pnl with
      | some v => if 0 < v then some v else none
      | none => none)
  let losses := closed_positions.filterMap
    (fun p => match p.pnl with
      | some v => if v < 0 then some v else none
      | none => none)
  let winning_trades := wins.length
  let losing_trades := losses.length
  let win_rate : ℚ :=
    if 0 < total_trades then (winning_trades : ℚ) / (total_trades : ℚ) else 0
  let avg_win := if wins.isEmpty then 0 else listMean wins
  let avg_loss := if losses.isEmpty then 0 else listMean losses
  let total_wins := wins.sum
  let total_losses := |losses.sum|
  let profit_factor :=
    if 0 < total_losses then some (total_wins / total_losses) else none
  let dd := calculate_max_drawdown (st.equity_curve.map EquityPoint.equity)
  let sharpe := calculate_sharpe (st.equity_curve.map EquityPoint.return_pct) 0
  let total_commission := (st.positions.map Position.commission_paid).sum
  some
  { total_return := total_return
    total_return_pct := total_return_pct
    annual_return_pct := annual_return_pct
    sharpe := sharpe
    max_drawdown := dd.1
    max_drawdown_pct := dd.2
    win_rate := win_rate
    total_trades := total_trades
    winning_trades := winning_trades
    losing_trades := losing_trades
    avg_win := avg_win
    avg_loss := avg_loss
    profit_factor := profit_factor
    total_commission := total_commission }

/-- `BacktestEngine.run` (engine.py lines 45-104).  `none` in the second
component models a raised exception: `ValueError` when the filtered
series is empty (raised before the pre-existing state is touched, which
is therefore returned unchanged), or the pydantic `ValidationError` from
`_calculate_metrics` (raised after the signals have executed, so the
mutated state is returned).  Otherwise the state is reset, every
generated signal is folded through `execute_signal`, and the
`BacktestResult` is assembled. -/
noncomputable def run (cfg : BacktestConfig) (st : EngineState)
    (strat : Strategy) (bars : List Bar) (ticker : String)
    (sd ed : Option ℕ) : EngineState × Option BacktestResult :=
  match filterBars bars sd ed with
  | [] => (st, none)
  | b :: rest =>
    let df := b :: rest
    let st0 := resetState cfg
    let signals := strat.generate_signals df
    let stF := signals.foldl (execute_signal cfg) st0
    (stF, (calculate_metrics cfg stF df).map (fun metrics =>
      { ticker := ticker
        strategy_type := strat.name
        strategy_params := strat.params
        start_date := b.date
        end_date := (df.getLast?.getD b).date
        initial_capital := cfg.initial_capital
        final_capital := stF.capital
        metrics := metrics
        positions := stF.positions
        signals := signals
        equity_curve := stF.equity_curve }))

/-- Reason string of the buy-and-hold entry signal. -/
def bhEntryReason : String := "Buy and hold - initial purchase"

/-- Reason string of the buy-and-hold exit signal. -/
def bhExitReason : String := "Buy and hold - final exit"

/-- `BuyAndHoldStrategy.generate_signals` (strategy.py lines 54-93):
BUY at the first bar's date/close, SELL at the last bar's date/close;
empty list on an empty series. -/
def buyAndHoldSignals (df : List Bar) : List Signal :=
  match df with
  | [] => []
  | b :: rest =>
    let lastBar := (b :: rest).getLast?.getD b
    [{ date := b.date
       signal := SignalType.BUY
       price := b.close
       reason := some bhEntryReason },
     { date := lastBar.date
       signal := SignalType.SELL
       price := lastBar.close
       reason := some bhExitReason }]

/-- `BuyAndHoldStrategy` as a `Strategy` value. -/
def buyAndHoldStrategy : Strategy :=
  { name := "BuyAndHold"
    params := []
    generate_signals := buyAndHoldSignals }

/-- A strategy emitting a single BUY at the first bar (an admissible
`BaseStrategy` instance; used to exhibit a run that ends with an open
position). -/
def oneBuySignals (df : List Bar) : List Signal :=
  match df with
  | [] => []
  | b :: _ =>
    [{ date := b.date, signal := SignalType.BUY, price := b.close, reason := none }]

/-- The single-BUY strategy as a `Strategy` value. -/
def oneBuyStrategy : Strategy :=
  { name := "OneBuy"
    params := []
    generate_signals := oneBuySignals }

/-- Two closed positions overlap when their `[entry_date, exit_date)`
intervals intersect; positions without an exit date never count. -/
def overlapB (p q : Position) : Bool :=
  match p.exit_date, q.exit_date with
  | some xp, some xq => decide (max p.entry_date q.entry_date < min xp xq)
  | _, _ => false

/-- No two positions of the list overlap (pairwise check). -/
def noOverlaps : List Position → Bool
  | [] => true
  | p :: t => (t.all fun q => !overlapB p q) && noOverlaps t

/-- The signal dates are chronological, starting from lower bound `d`
(the spec requires strategies to emit chronological signals). -/
def sortedFrom (d : ℕ) : List Signal → Bool
  | [] => true
  | s :: t => decide (d ≤ s.date) && sortedFrom s.date t

/-- Invariant carried through a run, with `d` a lower bound on all future
signal dates: the closed positions are pairwise non-overlapping, every
recorded exit date is at most `d`, and every recorded exit date precedes
the entry date of the currently open position (if any). -/
def NoOverlapInv (st : EngineState) (d : ℕ) : Prop :=
  noOverlaps st.positions = true ∧
  (∀ p ∈ st.positions, ∀ xd, p.exit_date = some xd → xd ≤ d) ∧
  (∀ op, st.current_position = some op →
    ∀ p ∈ st.positions, ∀ xd, p.exit_date = some xd → xd ≤ op.entry_date)

/-- Whether any trade has been filled so far in a run (a closed position
was recorded or a position is open). -/
def hasFill (st : EngineState) : Bool :=
  !st.positions.isEmpty || st.current_position.isSome

/-- The two engine states hold open positions of the same quantity and
entry price (or are both flat). -/
def alignedB (st1 st2 : EngineState) : Bool :=
  decide (st1.current_position.map (fun p => (p.quantity, p.entry_price)) =
    st2.current_position.map (fun p => (p.quantity, p.entry_price)))

/-- The two runs stay aligned (same fill decisions with the same
quantities) after every prefix of the signal list. -/
def alignedAll (cfg1 cfg2 : BacktestConfig) :
    List Signal → EngineState → EngineState → Bool
  | [], st1, st2 => alignedB st1 st2
  | s :: t, st1, st2 =>
    alignedB st1 st2 &&
      alignedAll cfg1 cfg2 t (execute_signal cfg1 st1 s) (execute_signal cfg2 st2 s)

/-- Every signal has a positive price (the pydantic `gt=0` constraint
on `Signal.price`). -/
def pricesPos (sigs : List Signal) : Bool :=
  sigs.all fun s => decide (0 < s.price)

/-! ### Concrete fixtures used by witnesses and counterexamples -/

/-- Ticker label used in concrete runs. -/
def tickerW : String := "X"

/-- A config with the library defaults (capital 10000, 0.1% commission). -/
def wCfg : BacktestConfig :=
  { initial_capital := 10000, commission := 0, commission_pct := 1/1000,
    slippage := 0, slippage_pct := 0, position_size_pct := 1 }

/-- Concrete BUY signal at price 100. -/
def wBuySig : Signal :=
  { date := 0, signal := SignalType.BUY, price := 100, reason := none }

/-- Concrete SELL signal at price 110. -/
def wSellSig : Signal :=
  { date := 1, signal := SignalType.SELL, price := 110, reason := none }

/-- The position opened by `wBuySig` under `wCfg`. -/
def wPos : Position :=
  { entry_date := 0, entry_price := 100, exit_date := none, exit_price := none,
    quantity := 99, side := PositionSide.LONG, status := PositionStatus.OPEN,
    entry_value := 9900, exit_value := none, pnl := none, pnl_pct := none,
    commission_paid := 99/10 }

/-- Engine state holding `wPos` open. -/
def wStOpen : EngineState :=
  { capital := 901/10, positions := [], equity_curve := [],
    current_position := some wPos }

/-- An arbitrary pre-existing engine state (used to observe that a failed
`run` does not touch it). -/
def stZero : EngineState :=
  { capital := 0, positions := [], equity_curve := [], current_position := none }

/-- Zero-cost config for the commission-monotonicity counterexample. -/
def cxCfgLo : BacktestConfig :=
  { initial_capital := 10000, commission := 0, commission_pct := 0,
    slippage := 0, slippage_pct := 0, position_size_pct := 1 }

/-- Same config with `commission_pct = 0.9` (within the pydantic range). -/
def cxCfgHi : BacktestConfig :=
  { cxCfgLo with commission_pct := 9/10 }

/-- A two-bar falling series: close 6000 then 1000. -/
def cxBarsDown : List Bar :=
  [{ date := 0, openPrice := 6000, high := 6000, low := 6000, close := 6000, volume := 1 },
   { date := 1, openPrice := 1000, high := 1000, low := 1000, close := 1000, volume := 1 }]

/-- A single-bar series with close 100. -/
def c8Bars : List Bar :=
  [{ date := 0, openPrice := 100, high := 100, low := 100, close := 100, volume := 1 }]

/-- A two-bar rising series: close 100 then 200. -/
def wBarsUp : List Bar :=
  [{ date := 0, openPrice := 100, high := 100, low := 100, close := 100, volume := 1 },
   { date := 1, openPrice := 200, high := 200, low := 200, close := 200, volume := 1 }]

/-- Valid config with a large flat slippage (no upper bound in the
schema); drives capital negative on a flat price series. -/
def c5Cfg : BacktestConfig :=
  { initial_capital := 10000, commission := 0, commission_pct := 1/1000,
    slippage := 1000, slippage_pct := 0, position_size_pct := 1 }

/-- Two bars with close 10 on consecutive days. -/
def c5Bars : List Bar :=
  [{ date := 0, openPrice := 10, high := 10, low := 10, close := 10, volume := 1 },
   { date := 1, openPrice := 10, high := 10, low := 10, close := 10, volume := 1 }]

/-- Config for the commission-monotonicity witness: capital 1050 chosen so
that both commission levels buy the same 10 shares. -/
def wCfgA : BacktestConfig :=
  { initial_capital := 1050, commission := 0, commission_pct := 0,
    slippage := 0, slippage_pct := 0, position_size_pct := 1 }

/-- Same config with `commission_pct = 0.01`. -/
def wCfgB : BacktestConfig :=
  { wCfgA with commission_pct := 1/100 }

/-! ### Helper lemmas -/

theorem truncZ_nonpos_iff (q : ℚ) : truncZ q ≤ 0 ↔ q < 1 := by
  unfold truncZ
  split
  · rw [show (⌊q⌋ ≤ 0 ↔ ¬ (1 : ℤ) ≤ ⌊q⌋) by omega, Int.le_floor, not_le]
    norm_num
  · rw [Int.ceil_le]
    push_cast
    constructor
    · intro _
      linarith
    · intro _
      linarith

theorem truncZ_eq_floor_of_one_le {q : ℚ} (h : 1 ≤ q) : truncZ q = ⌊q⌋ := by
  unfold truncZ
  rw [if_pos (by linarith)]

/-- `trade_step` never touches the equity curve. -/
theorem trade_step_equity_curve (cfg : BacktestConfig) (st : EngineState)
    (sig : Signal) : (trade_step cfg st sig).equity_curve = st.equity_curve := by
  unfold trade_step open_position close_position
  rcases sig.signal <;> rcases st.current_position <;> dsimp only
  all_goals repeat' split
  all_goals rfl

/-- One fold step of `execute_signal` appends exactly one equity point. -/
theorem execute_signal_equity_length (cfg : BacktestConfig) (st : EngineState)
    (sig : Signal) :
    (execute_signal cfg st sig).equity_curve.length = st.equity_curve.length + 1 := by
  unfold execute_signal update_equity_curve
  simp [trade_step_equity_curve]

theorem fold_equity_length (cfg : BacktestConfig) (sigs : List Signal) :
    ∀ st : EngineState,
      ((sigs.foldl (execute_signal cfg) st).equity_curve).length =
        st.equity_curve.length + sigs.length := by
  induction sigs with
  | nil => intro st; simp
  | cons s t ih =>
    intro st
    simp only [List.foldl_cons, ih, execute_signal_equity_length, List.length_cons]
    omega

theorem ddStep_nonneg (acc : ℚ × ℚ × ℚ) (v : ℚ)
    (h1 : 0 ≤ acc.2.1) (h2 : 0 ≤ acc.2.2) :
    0 ≤ (ddStep acc v).2.1 ∧ 0 ≤ (ddStep acc v).2.2 := by
  unfold ddStep
  dsimp only
  set peak := if acc.1 < v then v else acc.1 with hpk
  have hvle : v ≤ peak := by rw [hpk]; split <;> linarith
  have hdd : (0 : ℚ) ≤ peak - v := by linarith
  have hpct : (0 : ℚ) ≤ (if 0 < peak then (peak - v) / peak * 100 else 0) := by
    by_cases hp : 0 < peak
    · rw [if_pos hp]
      exact mul_nonneg (div_nonneg hdd (le_of_lt hp)) (by norm_num)
    · rw [if_neg hp]
  by_cases hgt : acc.2.1 < peak - v
  · rw [if_pos hgt]
    exact ⟨hdd, hpct⟩
  · rw [if_neg hgt]
    exact ⟨h1, h2⟩

theorem dd_fold_nonneg (l : List ℚ) :
    ∀ acc : ℚ × ℚ × ℚ, 0 ≤ acc.2.1 → 0 ≤ acc.2.2 →
      0 ≤ (l.foldl ddStep acc).2.1 ∧ 0 ≤ (l.foldl ddStep acc).2.2 := by
  induction l with
  | nil => intro acc h1 h2; exact ⟨h1, h2⟩
  | cons v t ih =>
    intro acc h1 h2
    have h := ddStep_nonneg acc v h1 h2
    simpa using ih (ddStep acc v) h.1 h.2

theorem floor_nonpos_iff (q : ℚ) : ⌊q⌋ ≤ 0 ↔ q < 1 := by
  rw [show (⌊q⌋ ≤ 0 ↔ ¬ (1 : ℤ) ≤ ⌊q⌋) by omega, Int.le_floor, not_le]
  norm_num

/-! ### Claims -/

/-- C10: `BuyAndHoldStrategy.generate_signals` returns `[]` on the empty
series and otherwise exactly two signals: a BUY at the first bar's
date/close followed by a SELL at the last bar's date/close; on a
single-bar series both signals carry the same date and price. -/
theorem c10_buy_and_hold_signals :
    buyAndHoldSignals [] = [] ∧
    (∀ (b : Bar) (rest : List Bar),
      buyAndHoldSignals (b :: rest) =
        [{ date := b.date, signal := SignalType.BUY, price := b.close,
           reason := some bhEntryReason },
         { date := ((b :: rest).getLast (List.cons_ne_nil b rest)).date,
           signal := SignalType.SELL,
           price := ((b :: rest).getLast (List.cons_ne_nil b rest)).close,
           reason := some bhExitReason }]) ∧
    (∀ b : Bar, buyAndHoldSignals [b] =
        [{ date := b.date, signal := SignalType.BUY, price := b.close,
           reason := some bhEntryReason },
         { date := b.date, signal := SignalType.SELL, price := b.close,
           reason := some bhExitReason }]) := by
  refine ⟨rfl, ?_, ?_⟩
  · intro b rest
    unfold buyAndHoldSignals
    dsimp only
    rw [List.getLast?_eq_getLast_of_ne_nil (List.cons_ne_nil b rest)]
    rfl
  · intro b
    rfl

/-- C6: the reported max drawdown pair is computed by the single forward
pass `ddStep`, and for every equity curve both components are
non-negative; the empty curve yields `(0, 0)`. -/
theorem c6_max_drawdown_nonneg :
    (∀ equity_values : List ℚ,
      0 ≤ (calculate_max_drawdown equity_values).1 ∧
      0 ≤ (calculate_max_drawdown equity_values).2) ∧
    calculate_max_drawdown [] = (0, 0) := by
  refine ⟨?_, rfl⟩
  intro l
  unfold calculate_max_drawdown
  match l with
  | [] => norm_num
  | v :: t =>
    exact dd_fold_nonneg (v :: t) (v, 0, 0) (le_refl 0) (le_refl 0)

/-- C4: every executed signal (BUY, SELL or HOLD, filled or dropped)
appends exactly one equity point carrying the signal's date,
`equity = cash + quantity * price` when a position is open and
`equity = cash` otherwise, the current cash, `return` and `return_pct`
relative to the initial capital; hence the equity-curve length equals
the number of signals processed by a run. -/
theorem c4_equity_point_per_signal :
    (∀ (cfg : BacktestConfig) (st : EngineState) (sig : Signal),
      (execute_signal cfg st sig).equity_curve =
        st.equity_curve ++
          [let st' := trade_step cfg st sig
           let pv := match st'.current_position with
             | some p => st'.capital + (p.quantity : ℚ) * sig.price
             | none => st'.capital
           { date := sig.date
             equity := pv
             cash := st'.capital
             ret := pv - cfg.initial_capital
             return_pct := (pv - cfg.initial_capital) / cfg.initial_capital * 100 }]) ∧
    (∀ (cfg : BacktestConfig) (sigs : List Signal),
      ((sigs.foldl (execute_signal cfg) (resetState cfg)).equity_curve).length =
        sigs.length) := by
  constructor
  · intro cfg st sig
    unfold execute_signal update_equity_curve
    rw [trade_step_equity_curve]
  · intro cfg sigs
    rw [fold_equity_length]
    simp [resetState]

/-- C2: a SELL processed while a position is open computes
`exit_price = price * (1 - slippage_pct) - slippage`,
`exit_value = quantity * exit_price`,
`exit_commission = commission_flat + exit_value * commission_pct`,
credits `exit_value - exit_commission` to capital, sets
`pnl = exit_value - entry_value - (entry_commission + exit_commission)`
and `pnl_pct = pnl / entry_value * 100`, marks the position CLOSED with
`commission_paid` equal to entry plus exit commission, appends it to the
closed-positions list, and returns to the FLAT state. -/
theorem c2_close_position_spec (cfg : BacktestConfig) (st : EngineState)
    (sig : Signal) (pos : Position)
    (h : st.current_position = some pos) :
    close_position cfg st sig =
      (let exit_price := sig.price * (1 - cfg.slippage_pct) - cfg.slippage
       let exit_value := (pos.quantity : ℚ) * exit_price
       let exit_commission := cfg.commission + exit_value * cfg.commission_pct
       let pnl := exit_value - pos.entry_value - (pos.commission_paid + exit_commission)
       { st with
         capital := st.capital + (exit_value - exit_commission)
         positions := st.positions ++
           [{ pos with
               exit_date := some sig.date
               exit_price := some exit_price
               exit_value := some exit_value
               pnl := some pnl
               pnl_pct := some (pnl / pos.entry_value * 100)
               status := PositionStatus.CLOSED
               commission_paid := pos.commission_paid + exit_commission }]
         current_position := none }) := by
  unfold close_position
  rw [h]

/-- C1: a BUY processed while FLAT computes
`available_capital = capital * position_size_pct`,
`entry_price = price * (1 + slippage_pct) + slippage`, and
`quantity = floor((available_capital - commission_flat) / (entry_price * (1 + commission_pct)))`
(the Python `int(...)` truncation agrees with the floor on every reachable
branch); when `quantity ≤ 0` or `entry_value + commission > capital` the
signal is dropped and the state is unchanged, otherwise capital decreases
by exactly `entry_value + commission` and one OPEN long position with
that quantity, entry price, entry value and `commission_paid = commission`
is created. -/
theorem c1_open_position_spec (cfg : BacktestConfig) (st : EngineState)
    (sig : Signal) (_hv : cfg.Valid) (_hp : 0 < sig.price)
    (h : st.current_position = none) :
    ((⌊(st.capital * cfg.position_size_pct - cfg.commission) /
        ((sig.price * (1 + cfg.slippage_pct) + cfg.slippage) * (1 + cfg.commission_pct))⌋ ≤ 0 ∨
      st.capital <
        (⌊(st.capital * cfg.position_size_pct - cfg.commission) /
            ((sig.price * (1 + cfg.slippage_pct) + cfg.slippage) * (1 + cfg.commission_pct))⌋ : ℚ) *
            (sig.price * (1 + cfg.slippage_pct) + cfg.slippage) +
          (cfg.commission +
            (⌊(st.capital * cfg.position_size_pct - cfg.commission) /
                ((sig.price * (1 + cfg.slippage_pct) + cfg.slippage) * (1 + cfg.commission_pct))⌋ : ℚ) *
                (sig.price * (1 + cfg.slippage_pct) + cfg.slippage) * cfg.commission_pct)) →
      open_position cfg st sig = st) ∧
    (0 < ⌊(st.capital * cfg.position_size_pct - cfg.commission) /
        ((sig.price * (1 + cfg.slippage_pct) + cfg.slippage) * (1 + cfg.commission_pct))⌋ →
     ¬ st.capital <
        (⌊(st.capital * cfg.position_size_pct - cfg.commission) /
            ((sig.price * (1 + cfg.slippage_pct) + cfg.slippage) * (1 + cfg.commission_pct))⌋ : ℚ) *
            (sig.price * (1 + cfg.slippage_pct) + cfg.slippage) +
          (cfg.commission +
            (⌊(st.capital * cfg.position_size_pct - cfg.commission) /
                ((sig.price * (1 + cfg.slippage_pct) + cfg.slippage) * (1 + cfg.commission_pct))⌋ : ℚ) *
                (sig.price * (1 + cfg.slippage_pct) + cfg.slippage) * cfg.commission_pct) →
      open_position cfg st sig =
        { st with
          capital := st.capital -
            ((⌊(st.capital * cfg.position_size_pct - cfg.commission) /
                ((sig.price * (1 + cfg.slippage_pct) + cfg.slippage) * (1 + cfg.commission_pct))⌋ : ℚ) *
                (sig.price * (1 + cfg.slippage_pct) + cfg.slippage) +
              (cfg.commission +
                (⌊(st.capital * cfg.position_size_pct - cfg.commission) /
                    ((sig.price * (1 + cfg.slippage_pct) + cfg.slippage) * (1 + cfg.commission_pct))⌋ : ℚ) *
                    (sig.price * (1 + cfg.slippage_pct) + cfg.slippage) * cfg.commission_pct))
          current_position := some
            { entry_date := sig.date
              entry_price := sig.price * (1 + cfg.slippage_pct) + cfg.slippage
              exit_date := none
              exit_price := none
              quantity := ⌊(st.capital * cfg.position_size_pct - cfg.commission) /
                ((sig.price * (1 + cfg.slippage_pct) + cfg.slippage) * (1 + cfg.commission_pct))⌋
              side := PositionSide.LONG
              status := PositionStatus.OPEN
              entry_value := (⌊(st.capital * cfg.position_size_pct - cfg.commission) /
                  ((sig.price * (1 + cfg.slippage_pct) + cfg.slippage) * (1 + cfg.commission_pct))⌋ : ℚ) *
                (sig.price * (1 + cfg.slippage_pct) + cfg.slippage)
              exit_value := none
              pnl := none
              pnl_pct := none
              commission_paid := cfg.commission +
                (⌊(st.capital * cfg.position_size_pct - cfg.commission) /
                    ((sig.price * (1 + cfg.slippage_pct) + cfg.slippage) * (1 + cfg.commission_pct))⌋ : ℚ) *
                  (sig.price * (1 + cfg.slippage_pct) + cfg.slippage) * cfg.commission_pct } }) := by
  set x := (st.capital * cfg.position_size_pct - cfg.commission) /
    ((sig.price * (1 + cfg.slippage_pct) + cfg.slippage) * (1 + cfg.commission_pct)) with hx
  constructor
  · rintro (hq | hcap)
    · have hx1 : x < 1 := (floor_nonpos_iff x).mp hq
      unfold open_position
      rw [h]
      dsimp only
      rw [if_pos (by rw [← hx, truncZ_nonpos_iff]; exact hx1)]
    · by_cases hq0 : truncZ x ≤ 0
      · unfold open_position
        rw [h]
        dsimp only
        rw [if_pos (by rw [← hx]; exact hq0)]
      · have hx1 : 1 ≤ x := by
          by_contra hlt
          exact hq0 ((truncZ_nonpos_iff x).mpr (not_le.mp hlt))
        have htr : truncZ x = ⌊x⌋ := truncZ_eq_floor_of_one_le hx1
        unfold open_position
        rw [h]
        dsimp only
        rw [← hx, htr, if_neg (by omega), if_pos hcap]
  · intro hq hcap
    have hx1 : (1 : ℚ) ≤ x := by
      have := Int.le_floor.mp (by omega : (1 : ℤ) ≤ ⌊x⌋)
      exact_mod_cast this
    have htr : truncZ x = ⌊x⌋ := truncZ_eq_floor_of_one_le hx1
    unfold open_position
    rw [h]
    dsimp only
    rw [← hx, htr, if_neg (by omega), if_neg hcap]

/-- C5 (amended): `run` fails exactly when the series is empty after
date filtering — that failure precedes any state mutation, so the
pre-existing engine state is returned untouched — *or* when the metrics
computation fails: a negative final capital with a positive calendar
span makes `(capital/initial) ** (1/years)` complex and the pydantic
float field raises, after the signals have already executed.  The
execution skips (insufficient capital, non-positive quantity,
BUY-in-position, SELL-while-flat) never raise by themselves. -/
theorem c5_amended_run_error_iff (cfg : BacktestConfig) (st : EngineState)
    (strat : Strategy) (bars : List Bar) (tk : String) (sd ed : Option ℕ) :
    ((run cfg st strat bars tk sd ed).2 = none ↔
      (filterBars bars sd ed = [] ∨
        calculate_metrics cfg
          ((strat.generate_signals (filterBars bars sd ed)).foldl
            (execute_signal cfg) (resetState cfg))
          (filterBars bars sd ed) = none)) ∧
    (filterBars bars sd ed = [] → (run cfg st strat bars tk sd ed).1 = st) ∧
    (∀ (cfg' : BacktestConfig) (st' : EngineState) (df' : List Bar),
      calculate_metrics cfg' st' df' = none ↔
        (0 < yearsOf df' ∧ st'.capital / cfg'.initial_capital < 0)) := by
  refine ⟨?_, ?_, ?_⟩
  · unfold run
    cases hf : filterBars bars sd ed with
    | nil => simp
    | cons b rest =>
      dsimp only
      simp [Option.map_eq_none']
  · intro hf
    unfold run
    rw [hf]
  · intro cfg' st' df'
    unfold calculate_metrics
    dsimp only
    by_cases hc : 0 < yearsOf df' ∧ st'.capital / cfg'.initial_capital < 0
    · rw [if_pos hc]
      simp [hc]
    · rw [if_neg hc]
      simp [hc]

/-- `execute_signal` preserves the all-closed invariant of the
accumulated positions list. -/
theorem execute_signal_positions_closed (cfg : BacktestConfig)
    (st : EngineState) (sig : Signal)
    (hinv : st.positions.map Position.status =
      List.replicate st.positions.length PositionStatus.CLOSED) :
    ((execute_signal cfg st sig).positions).map Position.status =
      List.replicate ((execute_signal cfg st sig).positions).length
        PositionStatus.CLOSED := by
  unfold execute_signal update_equity_curve trade_step open_position close_position
  rcases sig.signal <;> rcases st.current_position <;> dsimp only
  all_goals repeat' split
  all_goals simp [hinv, List.replicate_succ']

theorem fold_positions_closed (cfg : BacktestConfig) (sigs : List Signal) :
    ∀ st : EngineState,
      st.positions.map Position.status =
        List.replicate st.positions.length PositionStatus.CLOSED →
      ((sigs.foldl (execute_signal cfg) st).positions).map Position.status =
        List.replicate ((sigs.foldl (execute_signal cfg) st).positions).length
          PositionStatus.CLOSED := by
  induction sigs with
  | nil => intro st h; exact h
  | cons s t ih =>
    intro st h
    exact ih (execute_signal cfg st s) (execute_signal_positions_closed cfg st s h)

/-- C8 (amended): the `positions` list of a returned `BacktestResult`
contains exactly the positions closed during the run — every entry has
status CLOSED, so a position still open when the signals are exhausted
is omitted — and `total_commission` is the sum of `commission_paid` over
that closed-positions list only. -/
theorem c8_amended_result_closed_only (cfg : BacktestConfig)
    (st : EngineState) (strat : Strategy) (bars : List Bar) (tk : String)
    (sd ed : Option ℕ) :
    ((run cfg st strat bars tk sd ed).2).elim True (fun r =>
      r.positions.map Position.status =
        List.replicate r.positions.length PositionStatus.CLOSED ∧
      PerformanceMetrics.total_commission r.metrics =
        (r.positions.map Position.commission_paid).sum) := by
  unfold run
  cases hf : filterBars bars sd ed with
  | nil => simp
  | cons b rest =>
    dsimp only
    cases hm : calculate_metrics cfg
        ((strat.generate_signals (b :: rest)).foldl (execute_signal cfg)
          (resetState cfg)) (b :: rest) with
    | none => trivial
    | some m =>
      dsimp only [Option.map, Option.elim]
      constructor
      · exact fold_positions_closed cfg (strat.generate_signals (b :: rest))
          (resetState cfg) rfl
      · unfold calculate_metrics at hm
        dsimp only at hm
        split at hm
        · exact absurd hm (by simp)
        · injection hm with hinj
          rw [← hinj]

theorem sum_map_sub (l : List ℚ) (c : ℚ) :
    (l.map (fun x => x - c)).sum = l.sum - l.length * c := by
  induction l with
  | nil => simp
  | cons a t ih =>
    simp only [List.map_cons, List.sum_cons, ih, List.length_cons]
    push_cast
    ring

theorem listMean_map_sub (l : List ℚ) (c : ℚ) (h : l ≠ []) :
    listMean (l.map (fun x => x - c)) = listMean l - c := by
  unfold listMean
  rw [List.length_map, sum_map_sub]
  have hn : (l.length : ℚ) ≠ 0 := by
    simpa using h
  field_simp

theorem listVar_map_sub (l : List ℚ) (c : ℚ) (h : l ≠ []) :
    listVar (l.map (fun x => x - c)) = listVar l := by
  unfold listVar
  rw [List.length_map, listMean_map_sub l c h, List.map_map]
  have hfe : ((fun y => (y - (listMean l - c)) ^ 2) ∘ (fun x => x - c)) =
      (fun x => (x - listMean l) ^ 2) := by
    funext x
    simp only [Function.comp_apply]
    ring
  rw [hfe]

/-- C7: `_calculate_sharpe_ratio` returns null exactly when the series
has fewer than 2 points or the (population) standard deviation of the
per-point `return_pct` series is zero — subtracting the risk-free rate
does not change the variance — and the engine invokes it on the equity
curve's `return_pct` values with the default risk-free rate 0; in the
remaining case it returns `mean(excess) / stdev(excess) * sqrt 252`
by definition of `calculate_sharpe`. -/
theorem c7_sharpe_null_iff :
    (∀ (returns : List ℚ) (risk_free_rate : ℚ),
      calculate_sharpe returns risk_free_rate = none ↔
        returns.length < 2 ∨ listVar returns = 0) ∧
    (∀ (cfg : BacktestConfig) (st : EngineState) (df : List Bar),
      (calculate_metrics cfg st df).elim True (fun m =>
        PerformanceMetrics.sharpe m =
          calculate_sharpe (st.equity_curve.map EquityPoint.return_pct) 0)) := by
  constructor
  · intro rs rf
    unfold calculate_sharpe
    by_cases h2 : rs.length < 2
    · simp [h2]
    · rw [if_neg h2]
      have hne : rs ≠ [] := by
        intro hnil
        rw [hnil] at h2
        simp at h2
      have hv := listVar_map_sub rs rf hne
      dsimp only
      by_cases hz : listVar (rs.map (fun x => x - rf)) = 0
      · rw [if_pos hz]
        constructor
        · intro _
          right
          rw [← hv]
          exact hz
        · intro _
          rfl
      · rw [if_neg hz]
        constructor
        · intro hsome
          exact absurd hsome (by simp)
        · rintro (hlt | hvar)
          · exact absurd hlt h2
          · exact absurd (hv.trans hvar) hz
  · intro cfg st df
    unfold calculate_metrics
    dsimp only
    split
    · trivial
    · rfl

theorem NoOverlapInv_congr {st st' : EngineState} (e : ℕ)
    (hp : st'.positions = st.positions)
    (hc : st'.current_position = st.current_position) :
    NoOverlapInv st e → NoOverlapInv st' e := by
  rintro ⟨h1, h2, h3⟩
  refine ⟨by rw [hp]; exact h1, by rw [hp]; exact h2, ?_⟩
  intro op hop p hmem xd hxd
  rw [hc] at hop
  rw [hp] at hmem
  exact h3 op hop p hmem xd hxd

theorem NoOverlapInv_mono {st : EngineState} {d d' : ℕ} (hdd : d ≤ d') :
    NoOverlapInv st d → NoOverlapInv st d' := by
  rintro ⟨h1, h2, h3⟩
  exact ⟨h1, fun p hp xd hxd => le_trans (h2 p hp xd hxd) hdd, h3⟩

theorem noOverlaps_append (l : List Position) (x : Position)
    (hl : noOverlaps l = true) (hx : ∀ p ∈ l, overlapB p x = false) :
    noOverlaps (l ++ [x]) = true := by
  induction l with
  | nil => simp [noOverlaps]
  | cons p t ih =>
    simp only [noOverlaps, Bool.and_eq_true, List.all_eq_true] at hl
    simp only [List.cons_append, noOverlaps, Bool.and_eq_true, List.all_eq_true]
    refine ⟨?_, ih hl.2 (fun q hq => hx q (List.mem_cons_of_mem p hq))⟩
    intro q hq
    rcases List.mem_append.mp hq with hq | hq
    · exact hl.1 q hq
    · rw [List.mem_singleton.mp hq, hx p (List.mem_cons_self p t)]
      rfl

/-- One step of the run preserves the no-overlap invariant, advancing
the date bound to the processed signal's date. -/
theorem noOverlapInv_step (cfg : BacktestConfig) (st : EngineState)
    (sig : Signal) (d : ℕ) (hinv : NoOverlapInv st d) (hd : d ≤ sig.date) :
    NoOverlapInv (execute_signal cfg st sig) sig.date := by
  have hts : NoOverlapInv (trade_step cfg st sig) sig.date := by
    obtain ⟨h1, h2, h3⟩ := hinv
    unfold trade_step
    rcases sig.signal with _ | _ | _
    · -- BUY
      unfold open_position
      rcases hcp : st.current_position with _ | pos
      · dsimp only
        split
        · exact NoOverlapInv_mono hd ⟨h1, h2, h3⟩
        · split
          · exact NoOverlapInv_mono hd ⟨h1, h2, h3⟩
          · refine ⟨h1, fun p hp xd hxd => le_trans (h2 p hp xd hxd) hd, ?_⟩
            intro op hop p hmem xd hxd
            cases hop
            exact le_trans (h2 p hmem xd hxd) hd
      · exact NoOverlapInv_mono hd ⟨h1, h2, h3⟩
    · -- SELL
      unfold close_position
      rcases hcp : st.current_position with _ | pos
      · exact NoOverlapInv_mono hd ⟨h1, h2, h3⟩
      · dsimp only
        refine ⟨?_, ?_, ?_⟩
        · apply noOverlaps_append st.positions _ h1
          intro p hmem
          unfold overlapB
          rcases hxd : p.exit_date with _ | xp
          · rfl
          · dsimp only
            have hle : xp ≤ pos.entry_date := h3 pos hcp p hmem xp hxd
            apply decide_eq_false
            omega
        · intro p hmem xd hxd
          rcases List.mem_append.mp hmem with hmem | hmem
          · exact le_trans (h2 p hmem xd hxd) hd
          · rw [List.mem_singleton.mp hmem] at hxd
            cases hxd
            exact le_refl _
        · intro op hop
          cases hop
    · -- HOLD
      exact NoOverlapInv_mono hd ⟨h1, h2, h3⟩
  exact NoOverlapInv_congr sig.date rfl rfl hts

theorem noOverlapInv_fold (cfg : BacktestConfig) :
    ∀ (sigs : List Signal) (d : ℕ) (st : EngineState),
      sortedFrom d sigs = true → NoOverlapInv st d →
      ∃ d', NoOverlapInv (sigs.foldl (execute_signal cfg) st) d' := by
  intro sigs
  induction sigs with
  | nil => intro d st _ hinv; exact ⟨d, hinv⟩
  | cons s t ih =>
    intro d st hsort hinv
    simp only [sortedFrom, Bool.and_eq_true, decide_eq_true_eq] at hsort
    exact ih s.date (execute_signal cfg st s) hsort.2
      (noOverlapInv_step cfg st s d hinv hsort.1)

/-- C3: at most one position is ever open — a BUY processed while a
position is open and a SELL processed while flat each leave capital, the
open position and the closed-positions list unchanged, appending only
one equity point — and consequently, for chronological signal sequences,
no two positions recorded by a run overlap in `[entry_date, exit_date)`. -/
theorem c3_single_position_no_overlap :
    (∀ (cfg : BacktestConfig) (st : EngineState) (sig : Signal) (p : Position),
      sig.signal = SignalType.BUY → st.current_position = some p →
        (execute_signal cfg st sig).capital = st.capital ∧
        (execute_signal cfg st sig).positions = st.positions ∧
        (execute_signal cfg st sig).current_position = st.current_position ∧
        (execute_signal cfg st sig).equity_curve.length =
          st.equity_curve.length + 1) ∧
    (∀ (cfg : BacktestConfig) (st : EngineState) (sig : Signal),
      sig.signal = SignalType.SELL → st.current_position = none →
        (execute_signal cfg st sig).capital = st.capital ∧
        (execute_signal cfg st sig).positions = st.positions ∧
        (execute_signal cfg st sig).current_position = st.current_position ∧
        (execute_signal cfg st sig).equity_curve.length =
          st.equity_curve.length + 1) ∧
    (∀ (cfg : BacktestConfig) (sigs : List Signal),
      sortedFrom 0 sigs = true →
        noOverlaps ((sigs.foldl (execute_signal cfg) (resetState cfg)).positions) =
          true) := by
  refine ⟨?_, ?_, ?_⟩
  · intro cfg st sig p hsig hcp
    unfold execute_signal update_equity_curve trade_step open_position
    rw [hsig, hcp]
    exact ⟨rfl, rfl, by rw [hcp], by simp⟩
  · intro cfg st sig hsig hcp
    unfold execute_signal update_equity_curve trade_step close_position
    rw [hsig, hcp]
    exact ⟨rfl, rfl, by rw [hcp], by simp⟩
  · intro cfg sigs hsort
    have hbase : NoOverlapInv (resetState cfg) 0 := by
      refine ⟨rfl, ?_, ?_⟩
      · intro p hp
        exact absurd hp (List.not_mem_nil p)
      · intro op hop
        cases hop
    obtain ⟨d', h1, _, _⟩ := noOverlapInv_fold cfg sigs 0 (resetState cfg) hsort hbase
    exact h1

theorem execute_signal_capital (cfg : BacktestConfig) (st : EngineState)
    (sig : Signal) :
    (execute_signal cfg st sig).capital = (trade_step cfg st sig).capital := rfl

theorem execute_signal_current (cfg : BacktestConfig) (st : EngineState)
    (sig : Signal) :
    (execute_signal cfg st sig).current_position =
      (trade_step cfg st sig).current_position := rfl

theorem hasFill_execute (cfg : BacktestConfig) (st : EngineState)
    (sig : Signal) :
    hasFill (execute_signal cfg st sig) = hasFill (trade_step cfg st sig) := rfl

theorem alignedB_eq {st1 st2 : EngineState} (h : alignedB st1 st2 = true) :
    st1.current_position.map (fun p => (p.quantity, p.entry_price)) =
      st2.current_position.map (fun p => (p.quantity, p.entry_price)) :=
  of_decide_eq_true h

theorem alignedAll_head (cfg1 cfg2 : BacktestConfig) (sigs : List Signal)
    (st1 st2 : EngineState) (h : alignedAll cfg1 cfg2 sigs st1 st2 = true) :
    alignedB st1 st2 = true := by
  cases sigs with
  | nil => exact h
  | cons s t =>
    simp only [alignedAll, Bool.and_eq_true] at h
    exact h.1

/-- Outcome of `_open_position` from a FLAT state: either the signal is
dropped (state unchanged) or a position with quantity `≥ 1` is opened at
the slipped entry price, paying flat plus proportional commission. -/
theorem open_position_cases (cfg : BacktestConfig) (st : EngineState)
    (sig : Signal) (h : st.current_position = none) :
    open_position cfg st sig = st ∨
    (∃ pos : Position, 1 ≤ pos.quantity ∧
      pos.entry_price = sig.price * (1 + cfg.slippage_pct) + cfg.slippage ∧
      (open_position cfg st sig).capital =
        st.capital -
          ((pos.quantity : ℚ) * pos.entry_price +
            (cfg.commission +
              (pos.quantity : ℚ) * pos.entry_price * cfg.commission_pct)) ∧
      (open_position cfg st sig).current_position = some pos ∧
      (open_position cfg st sig).positions = st.positions) := by
  unfold open_position
  rw [h]
  dsimp only
  by_cases hq : truncZ ((st.capital * cfg.position_size_pct - cfg.commission) /
      ((sig.price * (1 + cfg.slippage_pct) + cfg.slippage) * (1 + cfg.commission_pct))) ≤ 0
  · rw [if_pos hq]
    left
    rfl
  · rw [if_neg hq]
    by_cases hcap : st.capital <
        (truncZ ((st.capital * cfg.position_size_pct - cfg.commission) /
            ((sig.price * (1 + cfg.slippage_pct) + cfg.slippage) * (1 + cfg.commission_pct))) : ℚ) *
            (sig.price * (1 + cfg.slippage_pct) + cfg.slippage) +
          (cfg.commission +
            (truncZ ((st.capital * cfg.position_size_pct - cfg.commission) /
                ((sig.price * (1 + cfg.slippage_pct) + cfg.slippage) * (1 + cfg.commission_pct))) : ℚ) *
                (sig.price * (1 + cfg.slippage_pct) + cfg.slippage) * cfg.commission_pct)
    · rw [if_pos hcap]
      left
      rfl
    · rw [if_neg hcap]
      right
      refine ⟨{ entry_date := sig.date
                entry_price := sig.price * (1 + cfg.slippage_pct) + cfg.slippage
                exit_date := none
                exit_price := none
                quantity := truncZ ((st.capital * cfg.position_size_pct - cfg.commission) /
                  ((sig.price * (1 + cfg.slippage_pct) + cfg.slippage) * (1 + cfg.commission_pct)))
                side := PositionSide.LONG
                status := PositionStatus.OPEN
                entry_value := (truncZ ((st.capital * cfg.position_size_pct - cfg.commission) /
                    ((sig.price * (1 + cfg.slippage_pct) + cfg.slippage) * (1 + cfg.commission_pct))) : ℚ) *
                  (sig.price * (1 + cfg.slippage_pct) + cfg.slippage)
                exit_value := none
                pnl := none
                pnl_pct := none
                commission_paid := cfg.commission +
                  (truncZ ((st.capital * cfg.position_size_pct - cfg.commission) /
                      ((sig.price * (1 + cfg.slippage_pct) + cfg.slippage) * (1 + cfg.commission_pct))) : ℚ) *
                    (sig.price * (1 + cfg.slippage_pct) + cfg.slippage) * cfg.commission_pct },
        ?_, rfl, rfl, rfl, rfl⟩
      dsimp only
      omega

theorem close_position_none (cfg : BacktestConfig) (st : EngineState)
    (sig : Signal) (h : st.current_position = none) :
    close_position cfg st sig = st := by
  unfold close_position
  rw [h]

/-- Outcome of `_close_position` from an open position: the capital is
credited with the exit value net of commission, the position slot is
emptied, and the closed-positions list becomes non-empty. -/
theorem close_position_some_spec (cfg : BacktestConfig) (st : EngineState)
    (sig : Signal) (p : Position) (h : st.current_position = some p) :
    (close_position cfg st sig).capital =
      st.capital +
        ((p.quantity : ℚ) * (sig.price * (1 - cfg.slippage_pct) - cfg.slippage) -
          (cfg.commission +
            (p.quantity : ℚ) * (sig.price * (1 - cfg.slippage_pct) - cfg.slippage) *
              cfg.commission_pct)) ∧
    (close_position cfg st sig).current_position = none ∧
    ((close_position cfg st sig).positions).isEmpty = false := by
  unfold close_position
  rw [h]
  dsimp only
  refine ⟨rfl, rfl, ?_⟩
  simp

/-- One aligned step: if the two runs (identical configs except a
strictly higher `commission_pct` in the second) make the same fill
decision with the same quantity and entry price on this signal, the
higher-commission capital stays below — strictly once any trade has
filled.  While a position is open the capital gap is at least
`quantity * (c2 - c1) * entry_price`, and `slippage < entry_price`,
which together absorb the commission "rebate" of a negative effective
exit price at the close (the exit price is bounded below by
`-slippage` since prices are positive and `slippage_pct ≤ 1`). -/
theorem step_capital_le (cfg1 cfg2 : BacktestConfig)
    (hcom : cfg2.commission = cfg1.commission)
    (hsl : cfg2.slippage = cfg1.slippage)
    (hslp : cfg2.slippage_pct = cfg1.slippage_pct)
    (hlt : cfg1.commission_pct < cfg2.commission_pct)
    (hs : 0 ≤ cfg1.slippage) (hsp : 0 ≤ cfg1.slippage_pct)
    (hsp1 : cfg1.slippage_pct ≤ 1)
    (s : Signal) (hp : 0 < s.price)
    (st1 st2 : EngineState)
    (hal : alignedB st1 st2 = true)
    (hal2 : alignedB (execute_signal cfg1 st1 s) (execute_signal cfg2 st2 s) = true)
    (hq1 : ∀ p, st1.current_position = some p → 1 ≤ p.quantity)
    (hsl1 : ∀ p, st1.current_position = some p → cfg1.slippage < p.entry_price)
    (hgap : ∀ p, st1.current_position = some p →
      (p.quantity : ℚ) * (cfg2.commission_pct - cfg1.commission_pct) * p.entry_price ≤
        st1.capital - st2.capital)
    (hle : st2.capital ≤ st1.capital)
    (hstrict : hasFill st1 = true → st2.capital < st1.capital) :
    (execute_signal cfg2 st2 s).capital ≤ (execute_signal cfg1 st1 s).capital ∧
    (hasFill (execute_signal cfg1 st1 s) = true →
      (execute_signal cfg2 st2 s).capital < (execute_signal cfg1 st1 s).capital) ∧
    (∀ p, (execute_signal cfg1 st1 s).current_position = some p → 1 ≤ p.quantity) ∧
    (∀ p, (execute_signal cfg1 st1 s).current_position = some p →
      cfg1.slippage < p.entry_price) ∧
    (∀ p, (execute_signal cfg1 st1 s).current_position = some p →
      (p.quantity : ℚ) * (cfg2.commission_pct - cfg1.commission_pct) * p.entry_price ≤
        (execute_signal cfg1 st1 s).capital - (execute_signal cfg2 st2 s).capital) := by
  have hal' := alignedB_eq hal
  have hal2' := alignedB_eq hal2
  rw [execute_signal_current, execute_signal_current] at hal2'
  rw [execute_signal_capital, execute_signal_capital, hasFill_execute,
    execute_signal_current]
  rcases hsig : s.signal with _ | _ | _
  · -- BUY
    have ht1 : trade_step cfg1 st1 s = open_position cfg1 st1 s := by
      unfold trade_step
      rw [hsig]
    have ht2 : trade_step cfg2 st2 s = open_position cfg2 st2 s := by
      unfold trade_step
      rw [hsig]
    rw [ht1, ht2]
    rw [ht1, ht2] at hal2'
    rcases hcp1 : st1.current_position with _ | p1
    · have hcp2 : st2.current_position = none := by
        rcases hcp2 : st2.current_position with _ | p2
        · rfl
        · rw [hcp1, hcp2] at hal'
          simp at hal'
      rcases open_position_cases cfg1 st1 s hcp1 with ho1 | ⟨pos1, hq1ge, hep1, hcap1, hcur1, _⟩ <;>
        rcases open_position_cases cfg2 st2 s hcp2 with ho2 | ⟨pos2, hq2ge, hep2, hcap2, hcur2, _⟩
      · rw [ho1, ho2]
        exact ⟨hle, hstrict, hq1, hsl1, hgap⟩
      · rw [ho1, hcp1] at hal2'
        rw [hcur2] at hal2'
        simp at hal2'
      · rw [ho2, hcp2] at hal2'
        rw [hcur1] at hal2'
        simp at hal2'
      · rw [hcur1, hcur2] at hal2'
        simp only [Option.map_some', Option.some.injEq, Prod.mk.injEq] at hal2'
        obtain ⟨hq12, hep12⟩ := hal2'
        rw [hsl, hslp] at hep2
        rw [hcom, ← hq12, ← hep12] at hcap2
        have hep_pos : 0 < pos1.entry_price := by
          rw [hep1]
          nlinarith
        have hq0 : (0 : ℚ) < (pos1.quantity : ℚ) := by
          exact_mod_cast lt_of_lt_of_le Int.zero_lt_one hq1ge
        have hkey : (pos1.quantity : ℚ) *
            (cfg2.commission_pct - cfg1.commission_pct) * pos1.entry_price =
            (pos1.quantity : ℚ) * pos1.entry_price * cfg2.commission_pct -
              (pos1.quantity : ℚ) * pos1.entry_price * cfg1.commission_pct := by
          ring
        have hprod : 0 < (pos1.quantity : ℚ) *
            (cfg2.commission_pct - cfg1.commission_pct) * pos1.entry_price :=
          mul_pos (mul_pos hq0 (by linarith)) hep_pos
        refine ⟨by rw [hcap1, hcap2]; nlinarith,
          fun _ => by rw [hcap1, hcap2]; nlinarith, ?_, ?_, ?_⟩
        · intro p hp'
          rw [hcur1] at hp'
          injection hp' with hinj
          rw [← hinj]
          exact hq1ge
        · intro p hp'
          rw [hcur1] at hp'
          injection hp' with hinj
          rw [← hinj, hep1]
          nlinarith
        · intro p hp'
          rw [hcur1] at hp'
          injection hp' with hinj
          rw [← hinj, hcap1, hcap2]
          nlinarith
    · have hcp2 : ∃ p2, st2.current_position = some p2 := by
        rcases hcp2 : st2.current_position with _ | p2
        · rw [hcp1, hcp2] at hal'
          simp at hal'
        · exact ⟨p2, rfl⟩
      obtain ⟨p2, hcp2⟩ := hcp2
      have ho1 : open_position cfg1 st1 s = st1 := by
        unfold open_position
        rw [hcp1]
      have ho2 : open_position cfg2 st2 s = st2 := by
        unfold open_position
        rw [hcp2]
      rw [ho1, ho2]
      exact ⟨hle, hstrict, hq1, hsl1, hgap⟩
  · -- SELL
    have ht1 : trade_step cfg1 st1 s = close_position cfg1 st1 s := by
      unfold trade_step
      rw [hsig]
    have ht2 : trade_step cfg2 st2 s = close_position cfg2 st2 s := by
      unfold trade_step
      rw [hsig]
    rw [ht1, ht2]
    rcases hcp1 : st1.current_position with _ | p1
    · have hcp2 : st2.current_position = none := by
        rcases hcp2 : st2.current_position with _ | p2
        · rfl
        · rw [hcp1, hcp2] at hal'
          simp at hal'
      rw [close_position_none cfg1 st1 s hcp1, close_position_none cfg2 st2 s hcp2]
      exact ⟨hle, hstrict, hq1, hsl1, hgap⟩
    · have hcp2 : ∃ p2, st2.current_position = some p2 := by
        rcases hcp2 : st2.current_position with _ | p2
        · rw [hcp1, hcp2] at hal'
          simp at hal'
        · exact ⟨p2, rfl⟩
      obtain ⟨p2, hcp2⟩ := hcp2
      have hpair : p1.quantity = p2.quantity ∧ p1.entry_price = p2.entry_price := by
        rw [hcp1, hcp2] at hal'
        simpa using hal'
      obtain ⟨hqq, _⟩ := hpair
      obtain ⟨hcapc1, hcurc1, _⟩ := close_position_some_spec cfg1 st1 s p1 hcp1
      obtain ⟨hcapc2, hcurc2, _⟩ := close_position_some_spec cfg2 st2 s p2 hcp2
      rw [hcom, hsl, hslp, ← hqq] at hcapc2
      have hxp_lb : -cfg1.slippage ≤ s.price * (1 - cfg1.slippage_pct) - cfg1.slippage := by
        nlinarith
      have hq1' : 1 ≤ p1.quantity := hq1 p1 hcp1
      have hq0 : (0 : ℚ) < (p1.quantity : ℚ) := by
        exact_mod_cast lt_of_lt_of_le Int.zero_lt_one hq1'
      have hslep := hsl1 p1 hcp1
      have hgap1 := hgap p1 hcp1
      have hdc : (0 : ℚ) < cfg2.commission_pct - cfg1.commission_pct := by linarith
      have hqdc : (0 : ℚ) < (p1.quantity : ℚ) * (cfg2.commission_pct - cfg1.commission_pct) :=
        mul_pos hq0 hdc
      have hreb : (p1.quantity : ℚ) * (cfg2.commission_pct - cfg1.commission_pct) *
            (-cfg1.slippage) ≤
          (p1.quantity : ℚ) * (cfg2.commission_pct - cfg1.commission_pct) *
            (s.price * (1 - cfg1.slippage_pct) - cfg1.slippage) :=
        mul_le_mul_of_nonneg_left hxp_lb (le_of_lt hqdc)
      have hwid : (0 : ℚ) < (p1.quantity : ℚ) * (cfg2.commission_pct - cfg1.commission_pct) *
          (p1.entry_price - cfg1.slippage) :=
        mul_pos hqdc (by linarith)
      refine ⟨by rw [hcapc1, hcapc2]; nlinarith,
        fun _ => by rw [hcapc1, hcapc2]; nlinarith, ?_, ?_, ?_⟩
      · intro p hp'
        rw [hcurc1] at hp'
        cases hp'
      · intro p hp'
        rw [hcurc1] at hp'
        cases hp'
      · intro p hp'
        rw [hcurc1] at hp'
        cases hp'
  · -- HOLD
    have ht1 : trade_step cfg1 st1 s = st1 := by
      unfold trade_step
      rw [hsig]
    have ht2 : trade_step cfg2 st2 s = st2 := by
      unfold trade_step
      rw [hsig]
    rw [ht1, ht2]
    exact ⟨hle, hstrict, hq1, hsl1, hgap⟩
theorem aligned_fold_capital_le (cfg1 cfg2 : BacktestConfig)
    (hcom : cfg2.commission = cfg1.commission)
    (hsl : cfg2.slippage = cfg1.slippage)
    (hslp : cfg2.slippage_pct = cfg1.slippage_pct)
    (hlt : cfg1.commission_pct < cfg2.commission_pct)
    (hs : 0 ≤ cfg1.slippage) (hsp : 0 ≤ cfg1.slippage_pct)
    (hsp1 : cfg1.slippage_pct ≤ 1) :
    ∀ (sigs : List Signal) (st1 st2 : EngineState),
      pricesPos sigs = true →
      alignedAll cfg1 cfg2 sigs st1 st2 = true →
      (∀ p, st1.current_position = some p → 1 ≤ p.quantity) →
      (∀ p, st1.current_position = some p → cfg1.slippage < p.entry_price) →
      (∀ p, st1.current_position = some p →
        (p.quantity : ℚ) * (cfg2.commission_pct - cfg1.commission_pct) * p.entry_price ≤
          st1.capital - st2.capital) →
      st2.capital ≤ st1.capital →
      (hasFill st1 = true → st2.capital < st1.capital) →
      (sigs.foldl (execute_signal cfg2) st2).capital ≤
        (sigs.foldl (execute_signal cfg1) st1).capital ∧
      (hasFill (sigs.foldl (execute_signal cfg1) st1) = true →
        (sigs.foldl (execute_signal cfg2) st2).capital <
          (sigs.foldl (execute_signal cfg1) st1).capital) := by
  intro sigs
  induction sigs with
  | nil =>
    intro st1 st2 _ _ _ _ _ hle hstrict
    exact ⟨hle, hstrict⟩
  | cons s t ih =>
    intro st1 st2 hpk hal hq1 hsl1 hgap hle hstrict
    simp only [pricesPos, List.all_cons, Bool.and_eq_true, decide_eq_true_eq] at hpk
    simp only [alignedAll, Bool.and_eq_true] at hal
    have hal2 := alignedAll_head cfg1 cfg2 t _ _ hal.2
    obtain ⟨hle', hstrict', hq1', hsl1', hgap'⟩ := step_capital_le cfg1 cfg2
      hcom hsl hslp hlt hs hsp hsp1 s hpk.1 st1 st2 hal.1 hal2
      hq1 hsl1 hgap hle hstrict
    simpa using ih (execute_signal cfg1 st1 s) (execute_signal cfg2 st2 s)
      hpk.2 hal.2 hq1' hsl1' hgap' hle' hstrict'

/-- C9 (amended): for two runs on the identical series, strategy and
configuration except a strictly higher `commission_pct`, *provided the
two runs make the same fill decisions with the same quantities at every
signal* (`alignedAll`) and every signal price is positive (the schema's
`gt=0` constraint), the higher-commission run's final capital is at
most the lower-commission run's, with equality only when no trade
fills; when a `BacktestResult` is returned its `final_capital` equals
that final state capital.  Without the same-fills proviso the claim is
false: a higher commission can shrink the computed quantity to zero,
block a losing trade, and end with strictly more capital
(`c9_counterexample_commission_monotonicity`). -/
theorem c9_amended_commission_monotonicity
    (cfg1 cfg2 : BacktestConfig) (stA stB : EngineState) (strat : Strategy)
    (bars : List Bar) (tk : String) (sd ed : Option ℕ)
    (hcom : cfg2.commission = cfg1.commission)
    (hsl : cfg2.slippage = cfg1.slippage)
    (hslp : cfg2.slippage_pct = cfg1.slippage_pct)
    (_hpsz : cfg2.position_size_pct = cfg1.position_size_pct)
    (hcap : cfg2.initial_capital = cfg1.initial_capital)
    (hlt : cfg1.commission_pct < cfg2.commission_pct)
    (hs : 0 ≤ cfg1.slippage) (hsp : 0 ≤ cfg1.slippage_pct)
    (hsp1 : cfg1.slippage_pct ≤ 1)
    (hdf : filterBars bars sd ed ≠ [])
    (hpk : pricesPos (strat.generate_signals (filterBars bars sd ed)) = true)
    (hal : alignedAll cfg1 cfg2 (strat.generate_signals (filterBars bars sd ed))
      (resetState cfg1) (resetState cfg2) = true) :
    ((run cfg2 stB strat bars tk sd ed).1).capital ≤
      ((run cfg1 stA strat bars tk sd ed).1).capital ∧
    (((run cfg2 stB strat bars tk sd ed).1).capital =
        ((run cfg1 stA strat bars tk sd ed).1).capital →
      hasFill ((run cfg1 stA strat bars tk sd ed).1) = false) ∧
    ((run cfg1 stA strat bars tk sd ed).2).elim True (fun r =>
      BacktestResult.final_capital r =
        ((run cfg1 stA strat bars tk sd ed).1).capital) ∧
    ((run cfg2 stB strat bars tk sd ed).2).elim True (fun r =>
      BacktestResult.final_capital r =
        ((run cfg2 stB strat bars tk sd ed).1).capital) := by
  have hq1base : ∀ p, (resetState cfg1).current_position = some p → 1 ≤ p.quantity := by
    intro p hp
    exact absurd hp (by simp [resetState])
  have hsl1base : ∀ p, (resetState cfg1).current_position = some p →
      cfg1.slippage < p.entry_price := by
    intro p hp
    exact absurd hp (by simp [resetState])
  have hgapbase : ∀ p, (resetState cfg1).current_position = some p →
      (p.quantity : ℚ) * (cfg2.commission_pct - cfg1.commission_pct) * p.entry_price ≤
        (resetState cfg1).capital - (resetState cfg2).capital := by
    intro p hp
    exact absurd hp (by simp [resetState])
  have hlebase : (resetState cfg2).capital ≤ (resetState cfg1).capital := by
    simp [resetState, hcap]
  have hstrictbase : hasFill (resetState cfg1) = true →
      (resetState cfg2).capital < (resetState cfg1).capital := by
    intro hfill
    simp [hasFill, resetState] at hfill
  cases hf : filterBars bars sd ed with
  | nil => exact absurd hf hdf
  | cons b rest =>
    rw [hf] at hpk hal
    obtain ⟨hle, hstrict⟩ := aligned_fold_capital_le cfg1 cfg2 hcom hsl hslp hlt
      hs hsp hsp1 (strat.generate_signals (b :: rest)) (resetState cfg1)
      (resetState cfg2) hpk hal hq1base hsl1base hgapbase hlebase hstrictbase
    unfold run
    rw [hf]
    dsimp only
    refine ⟨hle, ?_, ?_, ?_⟩
    · intro heq
      cases hfill : hasFill ((strat.generate_signals (b :: rest)).foldl
          (execute_signal cfg1) (resetState cfg1)) with
      | false => rfl
      | true => exact absurd heq (by have := hstrict hfill; linarith)
    · cases calculate_metrics cfg1 ((strat.generate_signals (b :: rest)).foldl
          (execute_signal cfg1) (resetState cfg1)) (b :: rest) with
      | none => trivial
      | some m => rfl
    · cases calculate_metrics cfg2 ((strat.generate_signals (b :: rest)).foldl
          (execute_signal cfg2) (resetState cfg2)) (b :: rest) with
      | none => trivial
      | some m => rfl

section ConcreteEvaluation

attribute [local semireducible] Rat.add Rat.mul Rat.sub Rat.inv

/-- Witness for C1: under the default config, a BUY at price 100 with
capital 10000 buys 99 shares and leaves capital 90.10. -/
theorem c1_open_position_spec_witness :
    BacktestConfig.Valid wCfg ∧ (0 : ℚ) < wBuySig.price ∧
    (resetState wCfg).current_position = none ∧
    open_position wCfg (resetState wCfg) wBuySig =
      { capital := 901/10, positions := [], equity_curve := [],
        current_position := some wPos } :=
  ⟨by decide, by decide, rfl,
    ((c1_open_position_spec wCfg (resetState wCfg) wBuySig (by decide)
      (by decide) rfl).2 (by decide) (by decide)).trans (by decide)⟩

/-- Witness for C2: closing the 99-share position at price 110 credits
10879.11, records pnl 969.21 (9.79%), and empties the open slot. -/
theorem c2_close_position_spec_witness :
    wStOpen.current_position = some wPos ∧
    close_position wCfg wStOpen wSellSig =
      { capital := 1096921/100,
        positions :=
          [{ entry_date := 0, entry_price := 100, exit_date := some 1,
             exit_price := some 110, quantity := 99,
             side := PositionSide.LONG, status := PositionStatus.CLOSED,
             entry_value := 9900, exit_value := some 10890,
             pnl := some (96921/100), pnl_pct := some (979/100),
             commission_paid := 2079/100 }],
        equity_curve := [], current_position := none } :=
  ⟨rfl, (c2_close_position_spec wCfg wStOpen wSellSig wPos rfl).trans (by decide)⟩

/-- Witness for the amended C5: a run on an empty series fails and
leaves the pre-existing engine state (here `wStOpen`) untouched. -/
theorem c5_amended_run_error_iff_witness :
    filterBars ([] : List Bar) none none = [] ∧
    (run wCfg wStOpen buyAndHoldStrategy [] tickerW none none).1 = wStOpen :=
  ⟨rfl, (c5_amended_run_error_iff wCfg wStOpen buyAndHoldStrategy []
    tickerW none none).2.1 rfl⟩

/-- Counterexample for C5: with the valid config `c5Cfg` (flat slippage
1000 has no upper bound in the schema) on the non-empty flat series
`c5Bars`, the BUY fills 9 shares at 1010 and the SELL executes at the
negative effective price -990, leaving capital -8000.18; the
annualized-return power then has a negative base, Python produces a
complex number, pydantic raises, and `run` fails on a non-empty
filtered series — refuting "fails only if the filtered series is
empty". -/
theorem c5_counterexample_nonempty_failure :
    BacktestConfig.Valid c5Cfg ∧
    filterBars c5Bars none none ≠ [] ∧
    ((run c5Cfg stZero buyAndHoldStrategy c5Bars tickerW none none).2).isNone = true ∧
    ((run c5Cfg stZero buyAndHoldStrategy c5Bars tickerW none none).1).capital =
      -(400009/50) :=
  ⟨by decide, by decide, by decide, by decide⟩

/-- Counterexample for C8: a run (single BUY, ample capital) ends with an
open position that has paid commission 9.90, yet the returned result's
position list is empty and its `total_commission` is 0 — open positions
are excluded from both, contradicting the claim. -/
theorem c8_counterexample_open_position_dropped :
    ((run wCfg stZero oneBuyStrategy c8Bars tickerW none none).1).current_position.map
        Position.commission_paid = some (99/10) ∧
    ((run wCfg stZero oneBuyStrategy c8Bars tickerW none none).2).elim false
        (fun r => r.positions.isEmpty) = true ∧
    ((run wCfg stZero oneBuyStrategy c8Bars tickerW none none).2).elim 1
        (fun r => PerformanceMetrics.total_commission r.metrics) = 0 := by
  refine ⟨by decide, by decide, by decide⟩

/-- Counterexample for C9: on a falling series (close 6000 then 1000,
capital 10000), the zero-commission run fills the BUY and ends with
5000, while the 90%-commission run's computed quantity is 0, so it
skips the trade and ends with its full 10000 — strictly more capital
under the strictly higher commission, refuting the claimed `≤`. -/
theorem c9_counterexample_commission_monotonicity :
    cxCfgLo.commission_pct < cxCfgHi.commission_pct ∧
    ((run cxCfgLo stZero buyAndHoldStrategy cxBarsDown tickerW none none).2).elim 0
      BacktestResult.final_capital = 5000 ∧
    ((run cxCfgHi stZero buyAndHoldStrategy cxBarsDown tickerW none none).2).elim 0
      BacktestResult.final_capital = 10000 ∧
    ((run cxCfgLo stZero buyAndHoldStrategy cxBarsDown tickerW none none).2).elim 0
      (fun r => (r.positions.length : ℚ)) = 1 ∧
    ¬ (((run cxCfgHi stZero buyAndHoldStrategy cxBarsDown tickerW none none).2).elim 0
        BacktestResult.final_capital ≤
      ((run cxCfgLo stZero buyAndHoldStrategy cxBarsDown tickerW none none).2).elim 0
        BacktestResult.final_capital) :=
  ⟨by decide, by decide, by decide, by decide, by decide⟩

/-- Witness for the amended C9: capital 1050, prices 100 then 200, and
commission 0 vs 1% — both runs buy the same 10 shares, stay aligned,
and the higher-commission run ends with 2020 ≤ 2050. -/
theorem c9_amended_commission_monotonicity_witness :
    filterBars wBarsUp none none ≠ [] ∧
    pricesPos (Strategy.generate_signals buyAndHoldStrategy
      (filterBars wBarsUp none none)) = true ∧
    alignedAll wCfgA wCfgB (Strategy.generate_signals buyAndHoldStrategy
      (filterBars wBarsUp none none)) (resetState wCfgA) (resetState wCfgB) = true ∧
    (((run wCfgB stZero buyAndHoldStrategy wBarsUp tickerW none none).1).capital ≤
      ((run wCfgA stZero buyAndHoldStrategy wBarsUp tickerW none none).1).capital ∧
    (((run wCfgB stZero buyAndHoldStrategy wBarsUp tickerW none none).1).capital =
        ((run wCfgA stZero buyAndHoldStrategy wBarsUp tickerW none none).1).capital →
      hasFill ((run wCfgA stZero buyAndHoldStrategy wBarsUp tickerW none none).1) =
        false) ∧
    ((run wCfgA stZero buyAndHoldStrategy wBarsUp tickerW none none).2).elim True
      (fun r => BacktestResult.final_capital r =
        ((run wCfgA stZero buyAndHoldStrategy wBarsUp tickerW none none).1).capital) ∧
    ((run wCfgB stZero buyAndHoldStrategy wBarsUp tickerW none none).2).elim True
      (fun r => BacktestResult.final_capital r =
        ((run wCfgB stZero buyAndHoldStrategy wBarsUp tickerW none none).1).capital)) :=
  ⟨by decide, by decide, by decide,
    c9_amended_commission_monotonicity wCfgA wCfgB stZero stZero
      buyAndHoldStrategy wBarsUp tickerW none none rfl rfl rfl rfl rfl
      (by decide) (by decide) (by decide) (by decide) (by decide) (by decide)
      (by decide)⟩

/-- Witness for C3: a BUY while a position is open and a SELL while flat
are both no-ops, and the two-signal buy-and-hold run yields a
non-overlapping position list. -/
theorem c3_single_position_no_overlap_witness :
    wBuySig.signal = SignalType.BUY ∧ wStOpen.current_position = some wPos ∧
    (execute_signal wCfg wStOpen wBuySig).positions = wStOpen.positions ∧
    wSellSig.signal = SignalType.SELL ∧ stZero.current_position = none ∧
    (execute_signal wCfg stZero wSellSig).capital = stZero.capital ∧
    sortedFrom 0 [wBuySig, wSellSig] = true ∧
    noOverlaps (([wBuySig, wSellSig].foldl (execute_signal wCfg)
      (resetState wCfg)).positions) = true :=
  ⟨rfl, rfl,
    (c3_single_position_no_overlap.1 wCfg wStOpen wBuySig wPos rfl rfl).2.1,
    rfl, rfl,
    (c3_single_position_no_overlap.2.1 wCfg stZero wSellSig rfl rfl).1,
    by decide,
    c3_single_position_no_overlap.2.2 wCfg [wBuySig, wSellSig] (by decide)⟩

end ConcreteEvaluation

end Backtest
